import Mathlib

/-!
Verification of the Cli-Proxy-API-Management-Center UI components.

Shallow embedding of the presentation-layer logic of the repository:
the theme store (src/stores theme module), the Drawer scroll lock,
Pagination page-window computation, the analytics display-state
dispatch (ModelStatsTable, ProviderStatsTable, RequestTimeline,
ActivityHeatmap), the JsonViewer line generation / folding, and the
ActivityHeatmap week bucketing.  Each definition is translated from the
TypeScript source; theorems state the specification claims.
-/

namespace CPMC

/-! ### Theme store (theme module, `part_007`)

`Theme` is the persisted preference, `ResolvedTheme` the value applied
to the DOM.  The OS preference (`prefers-color-scheme: dark`) is
modelled by a boolean `systemDark` parameter. -/

inductive Theme where
  | light
  | dark
  | auto
deriving DecidableEq, Repr, Inhabited

inductive ResolvedTheme where
  | light
  | dark
deriving DecidableEq, Repr, Inhabited

/-- `getSystemTheme`: dark when the media query matches, else light. -/
def getSystemTheme (systemDark : Bool) : ResolvedTheme :=
  if systemDark then ResolvedTheme.dark else ResolvedTheme.light

/-- The resolution used by the store operations:
`theme === 'auto' ? getSystemTheme() : theme`. -/
def resolveTheme (t : Theme) (systemDark : Bool) : ResolvedTheme :=
  match t with
  | Theme.auto => getSystemTheme systemDark
  | Theme.light => ResolvedTheme.light
  | Theme.dark => ResolvedTheme.dark

structure ThemeState where
  theme : Theme
  resolvedTheme : ResolvedTheme
deriving DecidableEq, Repr, Inhabited

/-- `setTheme` from the store. -/
def setTheme (t : Theme) (systemDark : Bool) (_st : ThemeState) : ThemeState :=
  { theme := t, resolvedTheme := resolveTheme t systemDark }

/-- The fixed order used by `cycleTheme`. -/
def themeOrder : List Theme := [Theme.light, Theme.dark, Theme.auto]

/-- `cycleTheme`: advance through `themeOrder` (wrapping), resolve and
set.  The wrapped index is always in range. -/
def cycleTheme (systemDark : Bool) (st : ThemeState) : ThemeState :=
  let currentIndex := themeOrder.indexOf st.theme
  have hlt : (currentIndex + 1) % themeOrder.length < themeOrder.length :=
    Nat.mod_lt _ (by decide)
  let nt := themeOrder[(currentIndex + 1) % themeOrder.length]
  { theme := nt, resolvedTheme := resolveTheme nt systemDark }

/-- `initializeTheme`: recompute the resolved theme for the saved theme. -/
def initializeTheme (systemDark : Bool) (st : ThemeState) : ThemeState :=
  { st with resolvedTheme := resolveTheme st.theme systemDark }

/-- The `change` listener installed by `initializeTheme`: only acts in
`auto` mode, where it re-resolves against the (new) OS preference. -/
def systemListener (systemDark : Bool) (st : ThemeState) : ThemeState :=
  if st.theme = Theme.auto then
    { st with resolvedTheme := getSystemTheme systemDark }
  else st

/-- The store invariant: the resolved theme matches the preference
(itself when light/dark, the OS preference when auto). -/
def themeInv (st : ThemeState) (systemDark : Bool) : Prop :=
  st.resolvedTheme = resolveTheme st.theme systemDark

/-- The successor in the order the spec states: light → dark → auto → light. -/
def specNextTheme : Theme → Theme
  | Theme.light => Theme.dark
  | Theme.dark => Theme.auto
  | Theme.auto => Theme.light

/-! ### Drawer scroll lock (`Drawer.tsx`)

`activeDrawerCount` is a module-level JS number, so it is modelled as an
`Int`; `lockClass` records whether the `drawer-open` class is on the
document. -/

structure ScrollState where
  activeDrawerCount : Int
  lockClass : Bool
deriving DecidableEq, Repr, Inhabited

/-- `lockScroll`: add the class on the 0 count, then increment. -/
def lockScroll (s : ScrollState) : ScrollState :=
  let s1 := if s.activeDrawerCount = 0 then { s with lockClass := true } else s
  { s1 with activeDrawerCount := s1.activeDrawerCount + 1 }

/-- `unlockScroll`: clamp the decrement at 0, remove the class at 0. -/
def unlockScroll (s : ScrollState) : ScrollState :=
  let c := max 0 (s.activeDrawerCount - 1)
  let s1 := { s with activeDrawerCount := c }
  if c = 0 then { s1 with lockClass := false } else s1

inductive ScrollOp where
  | lock
  | unlock
deriving DecidableEq, Repr, Inhabited

def applyScrollOp (s : ScrollState) : ScrollOp → ScrollState
  | ScrollOp.lock => lockScroll s
  | ScrollOp.unlock => unlockScroll s

/-- Run a sequence of lock/unlock calls from the initial module state. -/
def runScrollOps (ops : List ScrollOp) : ScrollState :=
  ops.foldl applyScrollOp { activeDrawerCount := 0, lockClass := false }

/-! ### Pagination (`Pagination.tsx`) -/

/-- `Math.ceil(total / pageSize)` for natural inputs. -/
def totalPagesOf (total pageSize : Nat) : Nat :=
  (total + pageSize - 1) / pageSize

inductive PageItem where
  | page (n : Int)
  | ellipsisItem
deriving DecidableEq, Repr, Inhabited

/-- `for (let i = a; i <= b; i++) pages.push(i)`. -/
def pageRange (a b : Int) : List PageItem :=
  (List.range (b + 1 - a).toNat).map (fun (i : Nat) => PageItem.page (a + (i : Int)))

/-- `getPageNumbers` from `Pagination.tsx`. -/
def getPageNumbers (current totalPages : Int) : List PageItem :=
  if totalPages ≤ 7 then
    pageRange 1 totalPages
  else if current ≤ 3 then
    pageRange 1 5 ++ [PageItem.ellipsisItem, PageItem.page totalPages]
  else if totalPages - 2 ≤ current then
    [PageItem.page 1, PageItem.ellipsisItem] ++ pageRange (totalPages - 4) totalPages
  else
    [PageItem.page 1, PageItem.ellipsisItem] ++
      pageRange (current - 1) (current + 1) ++
      [PageItem.ellipsisItem, PageItem.page totalPages]

/-- The page window as the spec words it, written independently of
`getPageNumbers` for the refinement comparison. -/
def specPageWindow (current totalPages : Int) : List PageItem :=
  if totalPages ≤ 7 then
    (List.range totalPages.toNat).map (fun (i : Nat) => PageItem.page (1 + (i : Int)))
  else if current ≤ 3 then
    [PageItem.page 1, PageItem.page 2, PageItem.page 3, PageItem.page 4,
     PageItem.page 5, PageItem.ellipsisItem, PageItem.page totalPages]
  else if totalPages - 2 ≤ current then
    [PageItem.page 1, PageItem.ellipsisItem, PageItem.page (totalPages - 4),
     PageItem.page (totalPages - 3), PageItem.page (totalPages - 2),
     PageItem.page (totalPages - 1), PageItem.page totalPages]
  else
    [PageItem.page 1, PageItem.ellipsisItem, PageItem.page (current - 1),
     PageItem.page current, PageItem.page (current + 1),
     PageItem.ellipsisItem, PageItem.page totalPages]

/-- `handlePageChange`: the callback fires (with the page) unless the
page is out of range or already current; `none` models "no call". -/
def handlePageChange (current totalPages page : Int) : Option Int :=
  if page < 1 ∨ totalPages < page ∨ page = current then none else some page

structure PaginationView where
  rangeStart : Int
  rangeEnd : Int
  items : List PageItem
deriving DecidableEq, Repr

/-- The rendered component: `if (total === 0) return null` comes first;
otherwise the record range and the page-number window are shown. -/
def paginationRender (current : Int) (total pageSize : Nat) : Option PaginationView :=
  if total = 0 then none
  else
    some
      { rangeStart := (current - 1) * (pageSize : Int) + 1
        rangeEnd := min (current * (pageSize : Int)) (total : Int)
        items := getPageNumbers current (totalPagesOf total pageSize) }

/-! ### Analytics display states (`part_003`, `part_005`,
`RequestTimeline.tsx`, `ActivityHeatmap.tsx`)

Each component first renders a loading view when `isLoading`, then an
error view when `hasError`, then either an empty-state message or the
data view.  The tables put the empty message inside the table body;
the charts replace the whole body. -/

structure ModelStats where
  provider : String
  model : String
  request_count : Nat
  success_count : Nat
  total_tokens : Nat
  avg_duration_ms : Nat
deriving DecidableEq, Repr

structure ProviderStats where
  provider : String
  request_count : Nat
  success_count : Nat
  model_count : Nat
  total_tokens : Nat
  avg_duration_ms : Nat
deriving DecidableEq, Repr

inductive StatsTableBody (α : Type) where
  | emptyMessage
  | rows (rs : List α)
deriving DecidableEq, Repr

inductive StatsTableView (α : Type) where
  | loading
  | error
  | table (body : StatsTableBody α)
deriving DecidableEq, Repr

/-- `ModelStatsTable`: loading, then error, then the table whose body is
the empty-row message iff `data.length === 0`. -/
def modelStatsTable (isLoading hasError : Bool) (data : List ModelStats) :
    StatsTableView ModelStats :=
  if isLoading then StatsTableView.loading
  else if hasError then StatsTableView.error
  else
    StatsTableView.table
      (if data.length = 0 then StatsTableBody.emptyMessage else StatsTableBody.rows data)

/-- `ProviderStatsTable`: same dispatch as the model table. -/
def providerStatsTable (isLoading hasError : Bool) (data : List ProviderStats) :
    StatsTableView ProviderStats :=
  if isLoading then StatsTableView.loading
  else if hasError then StatsTableView.error
  else
    StatsTableView.table
      (if data.length = 0 then StatsTableBody.emptyMessage else StatsTableBody.rows data)

structure TimelinePoint where
  hour : String
  requests : Nat
deriving DecidableEq, Repr

structure RequestTimelineData where
  points : List TimelinePoint
deriving DecidableEq, Repr

inductive ChartView (α : Type) where
  | loading
  | error
  | empty
  | chart (body : α)
deriving DecidableEq, Repr

/-- `RequestTimeline`: loading, error, then `hasData = data &&
data.points && data.points.length > 0` decides empty vs chart. -/
def requestTimeline (isLoading hasError : Bool) (data : Option RequestTimelineData) :
    ChartView (List TimelinePoint) :=
  if isLoading then ChartView.loading
  else if hasError then ChartView.error
  else
    match data with
    | none => ChartView.empty
    | some d => if d.points.length = 0 then ChartView.empty else ChartView.chart d.points

/-! ### ActivityHeatmap (`ActivityHeatmap.tsx`, `part_004`)

Dates are modelled by their civil calendar value; `toEpochDays` is the
standard civil-from-days algorithm, matching the JS `Date` UTC
semantics, and `getUTCDay` is the JS weekday (Sunday = 0). -/

structure CDate where
  year : Int
  month : Nat
  day : Nat
deriving DecidableEq, Repr

/-- Days since 1970-01-01 of a civil date (Gregorian calendar). -/
def toEpochDays (dt : CDate) : Int :=
  let y : Int := if dt.month ≤ 2 then dt.year - 1 else dt.year
  let era : Int := (if 0 ≤ y then y else y - 399) / 400
  let yoe : Int := y - era * 400
  let mp : Int := ((dt.month : Int) + 9) % 12
  let doy : Int := (153 * mp + 2) / 5 + (dt.day : Int) - 1
  let doe : Int := yoe * 365 + yoe / 4 - yoe / 100 + doy
  era * 146097 + doe - 719468

/-- `date.getUTCDay()`: 0 = Sunday … 6 = Saturday (1970-01-01 is a
Thursday, weekday 4). -/
def getUTCDay (dt : CDate) : Nat :=
  ((toEpochDays dt + 4) % 7).toNat

structure HeatDay where
  date : CDate
  requests : Int
  total_tokens : Nat
deriving DecidableEq, Repr

/-- A grid cell: a real day record, or the `{ date: '', requests: -1 }`
placeholder used for padding. -/
inductive HeatCell where
  | pad
  | real (d : HeatDay)
deriving DecidableEq, Repr

/-- One iteration of the `data.days.forEach` loop: push the day onto the
current week and close the week after a Saturday. -/
def weekStep (acc : List (List HeatCell) × List HeatCell) (d : HeatDay) :
    List (List HeatCell) × List HeatCell :=
  let cw := acc.2 ++ [HeatCell.real d]
  if getUTCDay d.date = 6 then (acc.1 ++ [cw], []) else (acc.1, cw)

/-- The `weeks` computation of `ActivityHeatmap`: pad the first week to
the start weekday, bucket by the forEach loop, pad the trailing week
to 7 cells.  (The `monthLabels` bookkeeping of the same loop does not
feed back into `weeks` and is omitted.) -/
def buildWeeks (days : List HeatDay) : List (List HeatCell) :=
  match days with
  | [] => []
  | d0 :: _ =>
    let startDow := getUTCDay d0.date
    let init : List (List HeatCell) × List HeatCell :=
      ([], List.replicate startDow HeatCell.pad)
    let folded := days.foldl weekStep init
    if 0 < folded.2.length then
      folded.1 ++ [folded.2 ++ List.replicate (7 - folded.2.length) HeatCell.pad]
    else folded.1

/-- The heatmap body dispatch (loading, error, empty, grid). -/
def activityHeatmap (isLoading hasError : Bool) (data : Option (List HeatDay)) :
    ChartView (List (List HeatCell)) :=
  if isLoading then ChartView.loading
  else if hasError then ChartView.error
  else
    match data with
    | none => ChartView.empty
    | some days =>
        if days.length = 0 then ChartView.empty else ChartView.chart (buildWeeks days)

/-! ### JsonViewer (`JsonViewer.tsx`)

HTML strings are modelled as `List Char`.  `escapeHtml` chains four
global single-character replacements, `&` first. -/

/-- One stage of `String.prototype.replace` with a global
single-character pattern. -/
def replaceAll (c : Char) (r : List Char) (s : List Char) : List Char :=
  (s.map (fun x => if x = c then r else [x])).flatten

def ampEntity : List Char := ['&', 'a', 'm', 'p', ';']
def ltEntity : List Char := ['&', 'l', 't', ';']
def gtEntity : List Char := ['&', 'g', 't', ';']
def quotEntity : List Char := ['&', 'q', 'u', 'o', 't', ';']

/-- `escapeHtml` from `JsonViewer.tsx` (`&`, then `<`, `>`, `"`). -/
def escapeHtml (s : List Char) : List Char :=
  replaceAll '"' quotEntity
    (replaceAll '>' gtEntity
      (replaceAll '<' ltEntity
        (replaceAll '&' ampEntity s)))

inductive TokenType where
  | key
  | strTok
  | numTok
  | boolTok
  | nullTok
  | bracket
  | punct
  | ellipsisTok
deriving DecidableEq, Repr

/-- The `classMap` lookup. -/
def tokenClass : TokenType → List Char
  | TokenType.key => "token-key".toList
  | TokenType.strTok => "token-string".toList
  | TokenType.numTok => "token-number".toList
  | TokenType.boolTok => "token-boolean".toList
  | TokenType.nullTok => "token-null".toList
  | TokenType.bracket => "token-bracket".toList
  | TokenType.punct => "token-punctuation".toList
  | TokenType.ellipsisTok => "token-ellipsis".toList

/-- `getTokenHtml`: span markup around the escaped token text. -/
def getTokenHtml (value : List Char) (t : TokenType) : List Char :=
  "<span class=\"".toList ++ tokenClass t ++ "\">".toList ++
    escapeHtml value ++ "</span>".toList

/-- A JSON value (the result of a successful `JSON.parse`, or a plain
object handed to the component). -/
inductive Json where
  | null
  | boolean (b : Bool)
  | number (n : Int)
  | strv (s : List Char)
  | arr (items : List Json)
  | obj (fields : List (List Char × Json))
deriving Repr

structure JsonLine where
  id : Nat
  lineNumber : Nat
  indent : Nat
  html : List Char
  canFold : Bool
  blockId : String
  blockEnd : Option Nat := none
  collapsedInfo : Option (List Char) := none
  closingBracket : Option (List Char) := none
  trailingComma : Option (List Char) := none
deriving DecidableEq, Repr

structure PState where
  result : List JsonLine
  lineNumber : Nat
  blockIdCounter : Nat
deriving Repr

/-- `result.push({...})` for a plain (non-foldable) line. -/
def pushLine (st : PState) (indent : Nat) (html : List Char) : PState :=
  { st with
    result := st.result ++
      [{ id := st.result.length, lineNumber := st.lineNumber, indent := indent,
         html := html, canFold := false, blockId := "" }],
    lineNumber := st.lineNumber + 1 }

/-- `result[i].blockEnd = e` — the in-place mutation after a block's
children and closing bracket are pushed. -/
def setBlockEndAt (l : List JsonLine) (i : Nat) (e : Nat) : List JsonLine :=
  match l[i]? with
  | some line => l.set i { line with blockEnd := some e }
  | none => l

def commaOf (isLast : Bool) : List Char :=
  if isLast then [] else [',']

mutual

/-- `processValue` from `parseJsonToLines`; `kp` is the accumulated
`keyPrefix` html. -/
def processValue (v : Json) (indent : Nat) (isLast : Bool) (kp : List Char)
    (st : PState) : PState :=
  match v with
  | Json.null =>
      pushLine st indent (kp ++ getTokenHtml "null".toList TokenType.nullTok ++ commaOf isLast)
  | Json.boolean b =>
      pushLine st indent (kp ++ getTokenHtml (toString b).toList TokenType.boolTok ++ commaOf isLast)
  | Json.number n =>
      pushLine st indent (kp ++ getTokenHtml (toString n).toList TokenType.numTok ++ commaOf isLast)
  | Json.strv s =>
      pushLine st indent (kp ++ getTokenHtml ('"' :: s ++ ['"']) TokenType.strTok ++ commaOf isLast)
  | Json.arr items =>
      if items.length = 0 then
        pushLine st indent (kp ++ getTokenHtml "[]".toList TokenType.bracket ++ commaOf isLast)
      else
        let blockId := "block-" ++ toString st.blockIdCounter
        let startLine := st.result.length
        let st1 : PState :=
          { result := st.result ++
              [{ id := startLine, lineNumber := st.lineNumber, indent := indent,
                 html := kp ++ getTokenHtml "[".toList TokenType.bracket,
                 canFold := true, blockId := blockId,
                 collapsedInfo := some ((toString items.length).toList ++ " items".toList),
                 closingBracket := some "]".toList,
                 trailingComma := some (commaOf isLast) }],
            lineNumber := st.lineNumber + 1,
            blockIdCounter := st.blockIdCounter + 1 }
        let st2 := processItems items (indent + 1) st1
        let st3 := pushLine st2 indent (getTokenHtml "]".toList TokenType.bracket ++ commaOf isLast)
        { st3 with result := setBlockEndAt st3.result startLine (st3.result.length - 1) }
  | Json.obj fields =>
      if fields.length = 0 then
        pushLine st indent (kp ++ getTokenHtml "\x7b\x7d".toList TokenType.bracket ++ commaOf isLast)
      else
        let blockId := "block-" ++ toString st.blockIdCounter
        let startLine := st.result.length
        let st1 : PState :=
          { result := st.result ++
              [{ id := startLine, lineNumber := st.lineNumber, indent := indent,
                 html := kp ++ getTokenHtml "\x7b".toList TokenType.bracket,
                 canFold := true, blockId := blockId,
                 collapsedInfo := some ((toString fields.length).toList ++ " keys".toList),
                 closingBracket := some "\x7d".toList,
                 trailingComma := some (commaOf isLast) }],
            lineNumber := st.lineNumber + 1,
            blockIdCounter := st.blockIdCounter + 1 }
        let st2 := processFields fields (indent + 1) st1
        let st3 := pushLine st2 indent (getTokenHtml "\x7d".toList TokenType.bracket ++ commaOf isLast)
        { st3 with result := setBlockEndAt st3.result startLine (st3.result.length - 1) }

/-- The `value.forEach` over array items (`idx === length - 1` marks the
last item). -/
def processItems (items : List Json) (indent : Nat) (st : PState) : PState :=
  match items with
  | [] => st
  | [x] => processValue x indent true [] st
  | x :: y :: rest =>
      processItems (y :: rest) indent (processValue x indent false [] st)

/-- The `keys.forEach` over object fields: each value gets the
`"key": ` html as its `keyPrefix`. -/
def processFields (fields : List (List Char × Json)) (indent : Nat) (st : PState) : PState :=
  match fields with
  | [] => st
  | [(k, v)] =>
      processValue v indent true
        (getTokenHtml ('"' :: k ++ ['"']) TokenType.key ++ getTokenHtml ": ".toList TokenType.punct) st
  | (k, v) :: f :: rest =>
      processFields (f :: rest) indent
        (processValue v indent false
          (getTokenHtml ('"' :: k ++ ['"']) TokenType.key ++ getTokenHtml ": ".toList TokenType.punct) st)

end

/-- `parseJsonToLines`. -/
def parseJsonToLines (data : Json) : List JsonLine :=
  (processValue data 0 true [] { result := [], lineNumber := 1, blockIdCounter := 0 }).result

/-- `lines.find((l) => l.canFold && l.blockId === blockId)`. -/
def findFold (lines : List JsonLine) (b : String) : Option JsonLine :=
  lines.find? (fun l => l.canFold && l.blockId == b)

/-- Whether one collapsed block hides the line with index `idx`
(the loop `for (idx = foldStart.id + 1; idx < blockEnd; idx++)`). -/
def isHiddenBy (lines : List JsonLine) (b : String) (idx : Nat) : Bool :=
  match findFold lines b with
  | some fs =>
      match fs.blockEnd with
      | some e => decide (fs.id + 1 ≤ idx ∧ idx < e)
      | none => false
  | none => false

/-- Union of the hidden ranges of all collapsed blocks. -/
def isHidden (lines : List JsonLine) (collapsed : List String) (idx : Nat) : Bool :=
  collapsed.any (fun b => isHiddenBy lines b idx)

/-- `visibleLines`: drop the lines whose id landed in the hidden set. -/
def visibleLines (lines : List JsonLine) (collapsed : List String) : List JsonLine :=
  lines.filter (fun l => ! isHidden lines collapsed l.id)

/-- `toggleFold` on the collapsed-set (sets modelled as duplicate-free
lists). -/
def toggleFold (b : String) (collapsed : List String) : List String :=
  if b = "" then collapsed
  else if b ∈ collapsed then collapsed.erase b
  else b :: collapsed

/-! ### JsonViewer input normalisation and dispatch

`JSON.parse` is a browser built-in; it is passed in as an abstract
`parse : String → Option Json` oracle (`none` = exception thrown). -/

/-- `String.prototype.trim`: strip whitespace at both ends. -/
def trimChars (s : List Char) : List Char :=
  (((s.dropWhile Char.isWhitespace).reverse.dropWhile Char.isWhitespace).reverse)

/-- The `data` prop: `string | Record<string, unknown> | null |
undefined` (`null` and `undefined` both satisfy `data == null`);
strings are modelled as character lists. -/
inductive InputData where
  | nullish
  | strInput (s : List Char)
  | objInput (v : Json)

inductive Normalized where
  | empty
  | text (s : List Char)
  | json (v : Json)

/-- The `normalized` memo. -/
def normalize (parse : List Char → Option Json) (data : InputData) : Normalized :=
  match data with
  | InputData.nullish => Normalized.empty
  | InputData.strInput s =>
      let trimmed := trimChars s
      if trimmed = [] then Normalized.empty
      else
        match parse trimmed with
        | some v => Normalized.json v
        | none => Normalized.text s
  | InputData.objInput v => Normalized.json v

/-- The `parseErrorMessage` memo: only a non-empty string input that
fails to parse produces the warning. -/
def parseErrorMessage (parse : List Char → Option Json) (data : InputData) :
    Option String :=
  match data with
  | InputData.strInput s =>
      if trimChars s = [] then none
      else
        match parse (trimChars s) with
        | some _ => none
        | none => some "invalid JSON"
  | _ => none

/-- `isPlainObject(value) && Object.keys(value).length === 0`. -/
def isEmptyPlainObject : Json → Bool
  | Json.obj [] => true
  | _ => false

inductive ViewOutput where
  | emptyView
  | rawView (warning : Option String) (content : List Char)
  | treeView (lines : List JsonLine)
deriving DecidableEq

/-- The component body: empty state, raw-text fallback (with the
warning banner when `parseErrorMessage` is set), empty state again for
an empty plain object, else the structured tree. -/
def jsonViewerRender (parse : List Char → Option Json) (data : InputData) : ViewOutput :=
  match normalize parse data with
  | Normalized.empty => ViewOutput.emptyView
  | Normalized.text s => ViewOutput.rawView (parseErrorMessage parse data) s
  | Normalized.json v =>
      if isEmptyPlainObject v then ViewOutput.emptyView
      else ViewOutput.treeView (parseJsonToLines v)

/-! ### Invariants and spec-side predicates -/

/-- Scroll lock invariant: non-negative count, class present iff some
drawer holds the lock. -/
def scrollInv (s : ScrollState) : Prop :=
  0 ≤ s.activeDrawerCount ∧ (s.lockClass = true ↔ 1 ≤ s.activeDrawerCount)

/-- Timeline input with no points ("empty or null"). -/
def emptyTimelineData : Option RequestTimelineData → Prop
  | none => True
  | some d => d.points = []

/-- Heatmap input with no days ("empty or null"). -/
def emptyHeatmapData : Option (List HeatDay) → Prop
  | none => True
  | some days => days = []

/-- Html built only from complete `getTokenHtml` outputs and literal
commas: every key and string value inside it went through
`escapeHtml`. -/
inductive TokenSafe : List Char → Prop where
  | nil : TokenSafe []
  | tok (v : List Char) (t : TokenType) (rest : List Char) :
      TokenSafe rest → TokenSafe (getTokenHtml v t ++ rest)
  | comma (rest : List Char) : TokenSafe rest → TokenSafe (',' :: rest)

/-- Ids of freshly generated lines continue the enclosing result's
positions. -/
def idsOk (base : Nat) (new : List JsonLine) : Prop :=
  ∀ j (h : j < new.length), (new[j]).id = base + j

/-- Every foldable generated line records a closing index strictly
inside the generated segment, after its own position. -/
def foldsOk (base : Nat) (new : List JsonLine) : Prop :=
  ∀ j (h : j < new.length), (new[j]).canFold = true →
    ∃ e, (new[j]).blockEnd = some e ∧ base + j < e ∧ e < base + new.length

/-- All generated html is token-safe. -/
def htmlOk (new : List JsonLine) : Prop :=
  ∀ j (h : j < new.length), TokenSafe (new[j]).html

/-- A parse oracle agreeing with `JSON.parse` on the single input
`"\x7b\x7d"` (the empty-object literal), used for concrete runs. -/
def parseEmptyObj : List Char → Option Json :=
  fun s => if s = "\x7b\x7d".toList then some (Json.obj []) else none

/-- A parse oracle that rejects every input. -/
def parseNone : List Char → Option Json := fun _ => none

/-! ## Theorems -/

/-- C5: after `setTheme`, `cycleTheme` and `initializeTheme` the
resolved theme equals the preference when it is light/dark and the OS
preference when it is auto; the system-preference change listener
re-establishes the same invariant against the new OS preference
whenever it held before the change. -/
theorem theme_ops_keep_resolved_invariant (t : Theme) (st : ThemeState) (sd sd' : Bool) :
    themeInv (setTheme t sd st) sd ∧
    themeInv (cycleTheme sd st) sd ∧
    themeInv (initializeTheme sd st) sd ∧
    (themeInv st sd → themeInv (systemListener sd' st) sd') := by
  obtain ⟨th, rt⟩ := st
  refine ⟨rfl, ?_, rfl, ?_⟩
  · cases th <;> simp [cycleTheme, themeOrder, themeInv]
  · intro h
    cases th
    · simpa [systemListener, themeInv, resolveTheme] using h
    · simpa [systemListener, themeInv, resolveTheme] using h
    · simp [systemListener, themeInv, resolveTheme, getSystemTheme]

/-- Witness for C5 at the concrete state (auto, light) with the OS
preference flipping from light to dark. -/
theorem theme_ops_keep_resolved_invariant_witness :
    themeInv (systemListener true { theme := Theme.auto, resolvedTheme := ResolvedTheme.light }) true :=
  (theme_ops_keep_resolved_invariant Theme.auto
    { theme := Theme.auto, resolvedTheme := ResolvedTheme.light } false true).2.2.2
    (by rfl)

/-- One `cycleTheme` call advances the preference one step. -/
theorem cycleTheme_theme (sd : Bool) (st : ThemeState) :
    (cycleTheme sd st).theme = specNextTheme st.theme := by
  obtain ⟨th, rt⟩ := st
  cases th <;> simp [cycleTheme, themeOrder, specNextTheme]

/-- C6: `cycleTheme` advances the preference in the fixed order
light → dark → auto → light, and three applications restore the
starting preference, whatever the OS preference was at each step. -/
theorem cycleTheme_order_and_period_three (st : ThemeState) (s1 s2 s3 : Bool) :
    (cycleTheme s1 st).theme = specNextTheme st.theme ∧
    (cycleTheme s3 (cycleTheme s2 (cycleTheme s1 st))).theme = st.theme := by
  refine ⟨cycleTheme_theme s1 st, ?_⟩
  rw [cycleTheme_theme, cycleTheme_theme, cycleTheme_theme]
  cases st.theme <;> rfl

/-- One lock/unlock call preserves the scroll-lock invariant. -/
theorem scrollInv_step (s : ScrollState) (op : ScrollOp) (h : scrollInv s) :
    scrollInv (applyScrollOp s op) := by
  obtain ⟨c, cls⟩ := s
  obtain ⟨h1, h2⟩ := h
  dsimp only [scrollInv] at h1 h2 ⊢
  cases op with
  | lock =>
      simp only [applyScrollOp, lockScroll]
      by_cases hc : c = 0
      · subst hc
        simp
      · simp only [if_neg hc]
        refine ⟨by omega, ?_⟩
        constructor
        · intro _; omega
        · intro _; exact h2.mpr (by omega)
  | unlock =>
      simp only [applyScrollOp, unlockScroll]
      by_cases hc : max 0 (c - 1) = 0
      · simp [hc]
      · simp only [if_neg hc]
        refine ⟨by omega, ?_⟩
        constructor
        · intro _; omega
        · intro _; exact h2.mpr (by omega)

/-- C10: for every sequence of `lockScroll`/`unlockScroll` calls from
the initial module state, the drawer counter never becomes negative and
the `drawer-open` class is on the document exactly when at least one
drawer holds the lock. -/
theorem drawer_scroll_lock_invariant (ops : List ScrollOp) :
    0 ≤ (runScrollOps ops).activeDrawerCount ∧
    ((runScrollOps ops).lockClass = true ↔ 1 ≤ (runScrollOps ops).activeDrawerCount) := by
  have main : ∀ (l : List ScrollOp) (s : ScrollState), scrollInv s →
      scrollInv (l.foldl applyScrollOp s) := by
    intro l
    induction l with
    | nil => intro s hs; exact hs
    | cons op rest ih => intro s hs; exact ih _ (scrollInv_step s op hs)
  exact main ops { activeDrawerCount := 0, lockClass := false } (by simp [scrollInv])

/-- C8: the page-change handler forwards exactly the in-range,
non-current pages to the callback and otherwise does nothing, and with
`total = 0` the component renders nothing. -/
theorem pagination_change_guard_and_empty_render (current totalPages page : Int) (pageSize : Nat) :
    (handlePageChange current totalPages page = some page ↔
      (1 ≤ page ∧ page ≤ totalPages ∧ page ≠ current)) ∧
    (handlePageChange current totalPages page = none ↔
      ¬(1 ≤ page ∧ page ≤ totalPages ∧ page ≠ current)) ∧
    paginationRender current 0 pageSize = none := by
  have hiff : (1 ≤ page ∧ page ≤ totalPages ∧ page ≠ current) ↔
      ¬(page < 1 ∨ totalPages < page ∨ page = current) := by omega
  by_cases h : page < 1 ∨ totalPages < page ∨ page = current
  · simp [handlePageChange, h, hiff, paginationRender]
  · simp [handlePageChange, h, hiff, paginationRender]

/-- Witness for C8: page 5 of 10 is forwarded when the current page
is 1. -/
theorem pagination_change_guard_witness : handlePageChange 1 10 5 = some 5 :=
  (pagination_change_guard_and_empty_render 1 10 5 0).1.mpr (by decide)

/-- Display-state classification of the model table. -/
theorem modelStatsTable_states (l e : Bool) (md : List ModelStats) :
    (modelStatsTable l e md = StatsTableView.loading ↔ l = true) ∧
    (modelStatsTable l e md = StatsTableView.error ↔ (l = false ∧ e = true)) ∧
    (modelStatsTable l e md = StatsTableView.table StatsTableBody.emptyMessage ↔
      (l = false ∧ e = false ∧ md = [])) ∧
    (modelStatsTable l e md = StatsTableView.table (StatsTableBody.rows md) ↔
      (l = false ∧ e = false ∧ md ≠ [])) := by
  cases l <;> cases e <;> cases md <;> simp [modelStatsTable]

/-- Display-state classification of the provider table. -/
theorem providerStatsTable_states (l e : Bool) (pd : List ProviderStats) :
    (providerStatsTable l e pd = StatsTableView.loading ↔ l = true) ∧
    (providerStatsTable l e pd = StatsTableView.error ↔ (l = false ∧ e = true)) ∧
    (providerStatsTable l e pd = StatsTableView.table StatsTableBody.emptyMessage ↔
      (l = false ∧ e = false ∧ pd = [])) ∧
    (providerStatsTable l e pd = StatsTableView.table (StatsTableBody.rows pd) ↔
      (l = false ∧ e = false ∧ pd ≠ [])) := by
  cases l <;> cases e <;> cases pd <;> simp [providerStatsTable]

/-- Display-state classification of the request timeline. -/
theorem requestTimeline_states (l e : Bool) (td : Option RequestTimelineData) :
    (requestTimeline l e td = ChartView.loading ↔ l = true) ∧
    (requestTimeline l e td = ChartView.error ↔ (l = false ∧ e = true)) ∧
    (requestTimeline l e td = ChartView.empty ↔
      (l = false ∧ e = false ∧ emptyTimelineData td)) ∧
    (∀ d, td = some d →
      (requestTimeline l e td = ChartView.chart d.points ↔
        (l = false ∧ e = false ∧ d.points ≠ []))) := by
  cases l <;> cases e <;> rcases td with _ | ⟨_ | ⟨p, pts⟩⟩ <;>
    simp [requestTimeline, emptyTimelineData]

/-- Display-state classification of the activity heatmap. -/
theorem activityHeatmap_states (l e : Bool) (hd : Option (List HeatDay)) :
    (activityHeatmap l e hd = ChartView.loading ↔ l = true) ∧
    (activityHeatmap l e hd = ChartView.error ↔ (l = false ∧ e = true)) ∧
    (activityHeatmap l e hd = ChartView.empty ↔
      (l = false ∧ e = false ∧ emptyHeatmapData hd)) ∧
    (∀ days, hd = some days →
      (activityHeatmap l e hd = ChartView.chart (buildWeeks days) ↔
        (l = false ∧ e = false ∧ days ≠ []))) := by
  cases l <;> cases e <;> rcases hd with _ | ⟨_ | ⟨d0, days⟩⟩ <;>
    simp [activityHeatmap, emptyHeatmapData]

/-- C7: every stats table and chart shows the loading state exactly when
`isLoading`, otherwise the error state exactly when `hasError`,
otherwise the empty-state message exactly when the data is empty or
null, and the data view exactly when non-empty data arrives with both
flags clear. -/
theorem stats_components_display_states (l e : Bool) (md : List ModelStats)
    (pd : List ProviderStats) (td : Option RequestTimelineData)
    (hd : Option (List HeatDay)) :
    ((modelStatsTable l e md = StatsTableView.loading ↔ l = true) ∧
     (modelStatsTable l e md = StatsTableView.error ↔ (l = false ∧ e = true)) ∧
     (modelStatsTable l e md = StatsTableView.table StatsTableBody.emptyMessage ↔
       (l = false ∧ e = false ∧ md = [])) ∧
     (modelStatsTable l e md = StatsTableView.table (StatsTableBody.rows md) ↔
       (l = false ∧ e = false ∧ md ≠ []))) ∧
    ((providerStatsTable l e pd = StatsTableView.loading ↔ l = true) ∧
     (providerStatsTable l e pd = StatsTableView.error ↔ (l = false ∧ e = true)) ∧
     (providerStatsTable l e pd = StatsTableView.table StatsTableBody.emptyMessage ↔
       (l = false ∧ e = false ∧ pd = [])) ∧
     (providerStatsTable l e pd = StatsTableView.table (StatsTableBody.rows pd) ↔
       (l = false ∧ e = false ∧ pd ≠ []))) ∧
    ((requestTimeline l e td = ChartView.loading ↔ l = true) ∧
     (requestTimeline l e td = ChartView.error ↔ (l = false ∧ e = true)) ∧
     (requestTimeline l e td = ChartView.empty ↔
       (l = false ∧ e = false ∧ emptyTimelineData td)) ∧
     (∀ d, td = some d →
       (requestTimeline l e td = ChartView.chart d.points ↔
         (l = false ∧ e = false ∧ d.points ≠ [])))) ∧
    ((activityHeatmap l e hd = ChartView.loading ↔ l = true) ∧
     (activityHeatmap l e hd = ChartView.error ↔ (l = false ∧ e = true)) ∧
     (activityHeatmap l e hd = ChartView.empty ↔
       (l = false ∧ e = false ∧ emptyHeatmapData hd)) ∧
     (∀ days, hd = some days →
       (activityHeatmap l e hd = ChartView.chart (buildWeeks days) ↔
         (l = false ∧ e = false ∧ days ≠ [])))) :=
  ⟨modelStatsTable_states l e md, providerStatsTable_states l e pd,
   requestTimeline_states l e td, activityHeatmap_states l e hd⟩

/-- Witness for C7: with both flags clear and one timeline point the
chart view is shown. -/
theorem stats_components_display_states_witness :
    requestTimeline false false (some { points := [{ hour := "00:00", requests := 1 }] }) =
      ChartView.chart [{ hour := "00:00", requests := 1 }] :=
  (((stats_components_display_states false false [] []
        (some { points := [{ hour := "00:00", requests := 1 }] }) none).2.2.1.2.2.2
      { points := [{ hour := "00:00", requests := 1 }] } rfl).mpr (by simp))

/-- Membership in a page range is exactly the interval. -/
theorem mem_pageRange (a b x : Int) :
    PageItem.page x ∈ pageRange a b ↔ (a ≤ x ∧ x ≤ b) := by
  unfold pageRange
  constructor
  · intro hmem
    obtain ⟨i, hi, heq⟩ := List.mem_map.mp hmem
    rw [List.mem_range] at hi
    injection heq with h
    omega
  · intro h
    refine List.mem_map.mpr ⟨(x - a).toNat, ?_, ?_⟩
    · rw [List.mem_range]
      omega
    · rw [show a + (((x - a).toNat : Nat) : Int) = x from by omega]

/-- A five-element page range, elementwise. -/
theorem pageRange_five (a : Int) :
    pageRange a (a + 4) = [PageItem.page a, PageItem.page (a + 1), PageItem.page (a + 2),
      PageItem.page (a + 3), PageItem.page (a + 4)] := by
  unfold pageRange
  rw [show (a + 4 + 1 - a).toNat = 5 from by omega,
    show List.range 5 = [0, 1, 2, 3, 4] from rfl]
  norm_num

/-- A three-element page range, elementwise. -/
theorem pageRange_three (a : Int) :
    pageRange a (a + 2) = [PageItem.page a, PageItem.page (a + 1), PageItem.page (a + 2)] := by
  unfold pageRange
  rw [show (a + 2 + 1 - a).toNat = 3 from by omega,
    show List.range 3 = [0, 1, 2] from rfl]
  norm_num

/-- C2: for positive totals and an in-range current page the generated
page window is exactly the window the spec describes, and it always
contains the current page, page 1 and the last page. -/
theorem pagination_window (total pageSize : Nat) (current : Int)
    (htot : 0 < total) (hps : 0 < pageSize)
    (hc1 : 1 ≤ current) (hc2 : current ≤ ((totalPagesOf total pageSize : Nat) : Int)) :
    getPageNumbers current ((totalPagesOf total pageSize : Nat) : Int) =
      specPageWindow current ((totalPagesOf total pageSize : Nat) : Int) ∧
    PageItem.page current ∈ getPageNumbers current ((totalPagesOf total pageSize : Nat) : Int) ∧
    PageItem.page 1 ∈ getPageNumbers current ((totalPagesOf total pageSize : Nat) : Int) ∧
    PageItem.page ((totalPagesOf total pageSize : Nat) : Int) ∈
      getPageNumbers current ((totalPagesOf total pageSize : Nat) : Int) := by
  set tp : Int := ((totalPagesOf total pageSize : Nat) : Int) with htpdef
  have htp1 : 1 ≤ tp := by
    have hn : 1 ≤ totalPagesOf total pageSize := by
      unfold totalPagesOf
      exact (Nat.le_div_iff_mul_le hps).mpr (by omega)
    rw [htpdef]
    exact_mod_cast hn
  by_cases h7 : tp ≤ 7
  · have heq : getPageNumbers current tp = specPageWindow current tp := by
      unfold getPageNumbers specPageWindow pageRange
      rw [if_pos h7, if_pos h7, show tp + 1 - 1 = tp from by ring]
    refine ⟨heq, ?_, ?_, ?_⟩
    · unfold getPageNumbers
      rw [if_pos h7, mem_pageRange]
      omega
    · unfold getPageNumbers
      rw [if_pos h7, mem_pageRange]
      omega
    · unfold getPageNumbers
      rw [if_pos h7, mem_pageRange]
      omega
  · by_cases hc3 : current ≤ 3
    · have e15 : pageRange 1 5 = [PageItem.page 1, PageItem.page 2, PageItem.page 3,
          PageItem.page 4, PageItem.page 5] := by decide
      have heq : getPageNumbers current tp = specPageWindow current tp := by
        unfold getPageNumbers specPageWindow
        rw [if_neg h7, if_neg h7, if_pos hc3, if_pos hc3, e15]
        rfl
      refine ⟨heq, ?_, ?_, ?_⟩ <;>
        · unfold getPageNumbers
          rw [if_neg h7, if_pos hc3, e15]
          simp
          try omega
    · by_cases hc4 : tp - 2 ≤ current
      · have h5 := pageRange_five (tp - 4)
        rw [show tp - 4 + 4 = tp from by ring, show tp - 4 + 1 = tp - 3 from by ring,
          show tp - 4 + 2 = tp - 2 from by ring, show tp - 4 + 3 = tp - 1 from by ring] at h5
        have heq : getPageNumbers current tp = specPageWindow current tp := by
          unfold getPageNumbers specPageWindow
          rw [if_neg h7, if_neg h7, if_neg hc3, if_neg hc3, if_pos hc4, if_pos hc4, h5]
          rfl
        refine ⟨heq, ?_, ?_, ?_⟩ <;>
          · unfold getPageNumbers
            rw [if_neg h7, if_neg hc3, if_pos hc4, h5]
            simp
            try omega
      · have h3 := pageRange_three (current - 1)
        rw [show current - 1 + 2 = current + 1 from by ring,
          show current - 1 + 1 = current from by ring] at h3
        have heq : getPageNumbers current tp = specPageWindow current tp := by
          unfold getPageNumbers specPageWindow
          rw [if_neg h7, if_neg h7, if_neg hc3, if_neg hc3, if_neg hc4, if_neg hc4, h3]
          rfl
        refine ⟨heq, ?_, ?_, ?_⟩ <;>
          · unfold getPageNumbers
            rw [if_neg h7, if_neg hc3, if_neg hc4, h3]
            simp
            try omega

/-- Witness for C2: 100 records at page size 10, current page 5 (the
middle branch). -/
theorem pagination_window_witness :
    PageItem.page 5 ∈ getPageNumbers 5 ((totalPagesOf 100 10 : Nat) : Int) :=
  (pagination_window 100 10 5 (by decide) (by decide) (by decide) (by decide)).2.1

/-- The heatmap forEach loop: if the incoming days' weekdays continue
the current column, all closed weeks have 7 cells, the final partial
week has `(cw.length + ds.length) % 7` cells, and flattening recovers
the processed cells in order. -/
theorem weekFold_spec (ds : List HeatDay) (ws : List (List HeatCell)) (cw : List HeatCell)
    (hws : ∀ w ∈ ws, w.length = 7) (hcw : cw.length < 7)
    (hdow : ∀ i (h : i < ds.length), getUTCDay (ds[i]).date = (cw.length + i) % 7) :
    (∀ w ∈ (ds.foldl weekStep (ws, cw)).1, w.length = 7) ∧
    (ds.foldl weekStep (ws, cw)).2.length = (cw.length + ds.length) % 7 ∧
    (ds.foldl weekStep (ws, cw)).1.flatten ++ (ds.foldl weekStep (ws, cw)).2 =
      ws.flatten ++ cw ++ ds.map HeatCell.real := by
  induction ds generalizing ws cw with
  | nil =>
      refine ⟨hws, ?_, by simp⟩
      simpa using (Nat.mod_eq_of_lt hcw).symm
  | cons d rest ih =>
      have hd0 : getUTCDay d.date = cw.length := by
        have h := hdow 0 (by simp)
        simpa [Nat.mod_eq_of_lt hcw] using h
      simp only [List.foldl_cons]
      by_cases hsat : getUTCDay d.date = 6
      · have hstep : weekStep (ws, cw) d = (ws ++ [cw ++ [HeatCell.real d]], []) := by
          simp [weekStep, hsat]
        rw [hstep]
        have hws1 : ∀ w ∈ ws ++ [cw ++ [HeatCell.real d]], w.length = 7 := by
          intro w hw
          rcases List.mem_append.mp hw with hmem | hmem
          · exact hws w hmem
          · simp only [List.mem_singleton] at hmem
            subst hmem
            simp
            omega
        have hdow1 : ∀ i (h : i < rest.length),
            getUTCDay (rest[i]).date = ((List.nil (α := HeatCell)).length + i) % 7 := by
          intro i hi
          have h := hdow (i + 1) (by simpa using Nat.succ_lt_succ hi)
          simp only [List.getElem_cons_succ] at h
          simp only [List.length_nil]
          omega
        obtain ⟨c1, c2, c3⟩ := ih (ws ++ [cw ++ [HeatCell.real d]]) [] hws1 (by simp) hdow1
        refine ⟨c1, ?_, ?_⟩
        · rw [c2]
          simp only [List.length_nil, List.length_cons]
          omega
        · rw [c3]
          simp
      · have hstep : weekStep (ws, cw) d = (ws, cw ++ [HeatCell.real d]) := by
          simp [weekStep, hsat]
        rw [hstep]
        have hlt1 : (cw ++ [HeatCell.real d]).length < 7 := by
          simp
          omega
        have hdow1 : ∀ i (h : i < rest.length),
            getUTCDay (rest[i]).date = ((cw ++ [HeatCell.real d]).length + i) % 7 := by
          intro i hi
          have h := hdow (i + 1) (by simpa using Nat.succ_lt_succ hi)
          simp only [List.getElem_cons_succ] at h
          simp only [List.length_append, List.length_singleton]
          omega
        obtain ⟨c1, c2, c3⟩ := ih ws (cw ++ [HeatCell.real d]) hws hlt1 hdow1
        refine ⟨c1, ?_, ?_⟩
        · rw [c2]
          simp only [List.length_append, List.length_cons, List.length_nil]
          omega
        · rw [c3]
          simp

/-- Unfolding `buildWeeks` on a non-empty list. -/
theorem buildWeeks_cons (d0 : HeatDay) (rest : List HeatDay) :
    buildWeeks (d0 :: rest) =
      if 0 < ((d0 :: rest).foldl weekStep
          ([], List.replicate (getUTCDay d0.date) HeatCell.pad)).2.length then
        ((d0 :: rest).foldl weekStep
          ([], List.replicate (getUTCDay d0.date) HeatCell.pad)).1 ++
          [((d0 :: rest).foldl weekStep
              ([], List.replicate (getUTCDay d0.date) HeatCell.pad)).2 ++
            List.replicate
              (7 - ((d0 :: rest).foldl weekStep
                ([], List.replicate (getUTCDay d0.date) HeatCell.pad)).2.length)
              HeatCell.pad]
      else
        ((d0 :: rest).foldl weekStep
          ([], List.replicate (getUTCDay d0.date) HeatCell.pad)).1 := rfl

/-- C4: for a non-empty run of consecutive calendar days the heatmap
weeks all have exactly 7 cells; flattened, the grid is the start-weekday
front padding, then the real days in input order, then the back padding
of the last week; and every real day sits in the column of its weekday
(position `startDayOfWeek + i`, column `(startDayOfWeek + i) % 7`,
which equals its `getUTCDay`). -/
theorem heatmap_weeks_bucketing (d0 : HeatDay) (rest : List HeatDay)
    (hchain : List.Chain'
      (fun a b => toEpochDays b.date = toEpochDays a.date + 1) (d0 :: rest)) :
    (∀ w ∈ buildWeeks (d0 :: rest), w.length = 7) ∧
    (buildWeeks (d0 :: rest)).flatten =
      List.replicate (getUTCDay d0.date) HeatCell.pad ++
        (d0 :: rest).map HeatCell.real ++
        List.replicate ((7 - (getUTCDay d0.date + (d0 :: rest).length) % 7) % 7) HeatCell.pad ∧
    (∀ i (h : i < (d0 :: rest).length),
      getUTCDay ((d0 :: rest)[i]).date = (getUTCDay d0.date + i) % 7) := by
  have hconsec : ∀ i (h : i + 1 < (d0 :: rest).length),
      toEpochDays ((d0 :: rest)[i + 1]).date = toEpochDays ((d0 :: rest)[i]).date + 1 := by
    intro i h
    have hg := List.chain'_iff_get.mp hchain i (by simpa using h)
    simpa [List.get_eq_getElem] using hg
  have hepoch : ∀ i (h : i < (d0 :: rest).length),
      toEpochDays ((d0 :: rest)[i]).date = toEpochDays d0.date + i := by
    intro i
    induction i with
    | zero => intro h; simp
    | succ k ihk =>
        intro h
        have hk : k < (d0 :: rest).length := by omega
        have h1 := hconsec k h
        rw [ihk hk] at h1
        rw [h1]
        push_cast
        ring
  have hdowAll : ∀ i (h : i < (d0 :: rest).length),
      getUTCDay ((d0 :: rest)[i]).date = (getUTCDay d0.date + i) % 7 := by
    intro i h
    unfold getUTCDay
    rw [hepoch i h]
    omega
  have hsd : getUTCDay d0.date < 7 := by
    unfold getUTCDay
    omega
  have hfold := weekFold_spec (d0 :: rest) []
    (List.replicate (getUTCDay d0.date) HeatCell.pad)
    (by simp)
    (by simpa using hsd)
    (by
      intro i h
      rw [List.length_replicate]
      exact hdowAll i h)
  obtain ⟨f1, f2, f3⟩ := hfold
  simp only [List.flatten_nil, List.nil_append, List.length_replicate] at f2 f3
  refine ⟨?_, ?_, hdowAll⟩
  · intro w hw
    rw [buildWeeks_cons] at hw
    by_cases hpos : 0 < ((d0 :: rest).foldl weekStep
        ([], List.replicate (getUTCDay d0.date) HeatCell.pad)).2.length
    · rw [if_pos hpos] at hw
      rcases List.mem_append.mp hw with hmem | hmem
      · exact f1 w hmem
      · simp only [List.mem_singleton] at hmem
        subst hmem
        rw [List.length_append, List.length_replicate]
        omega
    · rw [if_neg hpos] at hw
      exact f1 w hw
  · rw [buildWeeks_cons]
    by_cases hpos : 0 < ((d0 :: rest).foldl weekStep
        ([], List.replicate (getUTCDay d0.date) HeatCell.pad)).2.length
    · rw [if_pos hpos]
      rw [List.flatten_append, List.flatten_singleton, ← List.append_assoc, f3]
      rw [f2, show (7 - (getUTCDay d0.date + (d0 :: rest).length) % 7) % 7 =
        7 - (getUTCDay d0.date + (d0 :: rest).length) % 7 from by omega]
    · rw [if_neg hpos]
      have hcw0 : ((d0 :: rest).foldl weekStep
          ([], List.replicate (getUTCDay d0.date) HeatCell.pad)).2 = [] := by
        rw [← List.length_eq_zero]
        omega
      rw [hcw0, List.append_nil] at f3
      rw [f3, show (7 - (getUTCDay d0.date + (d0 :: rest).length) % 7) % 7 = 0 from by omega]
      simp

/-- Witness for C4: three consecutive days 2024-01-01 (a Monday) to
2024-01-03 flatten to one pad cell, the three real days, and three
trailing pad cells. -/
theorem heatmap_weeks_bucketing_witness :
    (buildWeeks
      [{ date := { year := 2024, month := 1, day := 1 }, requests := 2, total_tokens := 5 },
       { date := { year := 2024, month := 1, day := 2 }, requests := 0, total_tokens := 0 },
       { date := { year := 2024, month := 1, day := 3 }, requests := 1, total_tokens := 9 }]).flatten =
      List.replicate 1 HeatCell.pad ++
        [{ date := { year := 2024, month := 1, day := 1 }, requests := 2, total_tokens := 5 },
         { date := { year := 2024, month := 1, day := 2 }, requests := 0, total_tokens := 0 },
         { date := { year := 2024, month := 1, day := 3 }, requests := 1,
           total_tokens := 9 }].map HeatCell.real ++
        List.replicate 3 HeatCell.pad := by
  have h := (heatmap_weeks_bucketing
    { date := { year := 2024, month := 1, day := 1 }, requests := 2, total_tokens := 5 }
    [{ date := { year := 2024, month := 1, day := 2 }, requests := 0, total_tokens := 0 },
     { date := { year := 2024, month := 1, day := 3 }, requests := 1, total_tokens := 9 }]
    (by
      simp only [List.chain'_cons, List.chain'_singleton, and_true]
      decide)).2.1
  rw [show getUTCDay { year := 2024, month := 1, day := 1 } = 1 from by decide] at h
  simpa using h

/-! ### JsonViewer generation invariants -/

/-- Token-safe strings are closed under concatenation. -/
theorem TokenSafe.append {a b : List Char} (ha : TokenSafe a) (hb : TokenSafe b) :
    TokenSafe (a ++ b) := by
  induction ha with
  | nil => simpa using hb
  | tok v t rest _ ih =>
      rw [List.append_assoc]
      exact TokenSafe.tok v t _ ih
  | comma rest _ ih =>
      exact TokenSafe.comma _ ih

/-- A lone token is token-safe. -/
theorem tokenSafe_single (v : List Char) (t : TokenType) : TokenSafe (getTokenHtml v t) := by
  have h := TokenSafe.tok v t [] TokenSafe.nil
  simpa using h

/-- The optional trailing comma is token-safe. -/
theorem tokenSafe_comma (b : Bool) : TokenSafe (commaOf b) := by
  cases b
  · exact TokenSafe.comma [] TokenSafe.nil
  · exact TokenSafe.nil

/-- The html of a simple value line is token-safe. -/
theorem tokenSafe_line (kp v : List Char) (t : TokenType) (b : Bool)
    (hkp : TokenSafe kp) : TokenSafe (kp ++ getTokenHtml v t ++ commaOf b) :=
  (hkp.append (tokenSafe_single v t)).append (tokenSafe_comma b)

theorem idsOk_cons {base : Nat} {l : JsonLine} {xs : List JsonLine}
    (hl : l.id = base) (hx : idsOk (base + 1) xs) : idsOk base (l :: xs) := by
  intro j h
  cases j with
  | zero => simpa using hl
  | succ k =>
      simp only [List.getElem_cons_succ]
      have hk := hx k (by simpa using Nat.lt_of_succ_lt_succ h)
      rw [hk]
      omega

theorem idsOk_append {base : Nat} {xs ys : List JsonLine}
    (hx : idsOk base xs) (hy : idsOk (base + xs.length) ys) : idsOk base (xs ++ ys) := by
  intro j h
  rw [List.length_append] at h
  rcases Nat.lt_or_ge j xs.length with hj | hj
  · rw [List.getElem_append_left hj]
    exact hx j hj
  · rw [List.getElem_append_right hj]
    have hk := hy (j - xs.length) (by omega)
    rw [hk]
    omega

theorem idsOk_single {base : Nat} {l : JsonLine} (hl : l.id = base) : idsOk base [l] := by
  intro j h
  have hj : j = 0 := by
    simpa using Nat.lt_one_iff.mp (by simpa using h)
  subst hj
  simpa using hl

theorem foldsOk_cons {base : Nat} {l : JsonLine} {xs : List JsonLine}
    (hl : l.canFold = true → ∃ e, l.blockEnd = some e ∧ base < e ∧ e < base + xs.length + 1)
    (hx : foldsOk (base + 1) xs) : foldsOk base (l :: xs) := by
  intro j h hf
  cases j with
  | zero =>
      simp only [List.getElem_cons_zero] at hf ⊢
      obtain ⟨e, h1, h2, h3⟩ := hl hf
      exact ⟨e, h1, by omega, by simp; omega⟩
  | succ k =>
      simp only [List.getElem_cons_succ] at hf ⊢
      obtain ⟨e, h1, h2, h3⟩ := hx k (by simpa using Nat.lt_of_succ_lt_succ h) hf
      exact ⟨e, h1, by omega, by simp; omega⟩

theorem foldsOk_append {base : Nat} {xs ys : List JsonLine}
    (hx : foldsOk base xs) (hy : foldsOk (base + xs.length) ys) : foldsOk base (xs ++ ys) := by
  intro j h hf
  rw [List.length_append] at h
  rcases Nat.lt_or_ge j xs.length with hj | hj
  · rw [List.getElem_append_left hj] at hf ⊢
    obtain ⟨e, h1, h2, h3⟩ := hx j hj hf
    exact ⟨e, h1, h2, by rw [List.length_append]; omega⟩
  · rw [List.getElem_append_right hj] at hf ⊢
    obtain ⟨e, h1, h2, h3⟩ := hy (j - xs.length) (by omega) hf
    refine ⟨e, h1, by omega, ?_⟩
    rw [List.length_append]
    omega

theorem foldsOk_single_nonfold {base : Nat} {l : JsonLine} (hl : l.canFold = false) :
    foldsOk base [l] := by
  intro j h hf
  simp only [List.length_cons, List.length_nil] at h
  have hj : j = 0 := by omega
  subst hj
  simp only [List.getElem_cons_zero] at hf
  rw [hl] at hf
  exact absurd hf (by simp)

theorem htmlOk_cons {l : JsonLine} {xs : List JsonLine}
    (hl : TokenSafe l.html) (hx : htmlOk xs) : htmlOk (l :: xs) := by
  intro j h
  cases j with
  | zero => simpa using hl
  | succ k => simpa using hx k (by simpa using Nat.lt_of_succ_lt_succ h)

theorem htmlOk_append {xs ys : List JsonLine} (hx : htmlOk xs) (hy : htmlOk ys) :
    htmlOk (xs ++ ys) := by
  intro j h
  rw [List.length_append] at h
  rcases Nat.lt_or_ge j xs.length with hj | hj
  · rw [List.getElem_append_left hj]
    exact hx j hj
  · rw [List.getElem_append_right hj]
    exact hy (j - xs.length) (by omega)

theorem htmlOk_single {l : JsonLine} (hl : TokenSafe l.html) : htmlOk [l] :=
  htmlOk_cons hl (by intro j h; simp at h)

/-- Pushing one plain line extends the result by a single well-formed
line. -/
theorem pushLine_spec (st : PState) (indent : Nat) (html : List Char)
    (hh : TokenSafe html) :
    ∃ new, (pushLine st indent html).result = st.result ++ new ∧
      0 < new.length ∧ idsOk st.result.length new ∧ foldsOk st.result.length new ∧
      htmlOk new := by
  refine ⟨[{ id := st.result.length, lineNumber := st.lineNumber, indent := indent,
             html := html, canFold := false, blockId := "" }], rfl, by simp, ?_, ?_, ?_⟩
  · exact idsOk_single rfl
  · exact foldsOk_single_nonfold rfl
  · exact htmlOk_single hh

/-- Closing a block: inserting the recorded end index into the opening
line of `base ++ openL :: (mid ++ [closeL])` yields a well-formed
extension of `base`. -/
theorem block_result_spec (base : List JsonLine) (openL closeL : JsonLine)
    (mid : List JsonLine)
    (hoid : openL.id = base.length) (_hofold : openL.canFold = true)
    (hohtml : TokenSafe openL.html)
    (hcid : closeL.id = base.length + 1 + mid.length) (hcfold : closeL.canFold = false)
    (hchtml : TokenSafe closeL.html)
    (hmidi : idsOk (base.length + 1) mid) (hmidf : foldsOk (base.length + 1) mid)
    (hmidh : htmlOk mid) :
    ∃ new,
      setBlockEndAt (base ++ openL :: (mid ++ [closeL])) base.length
        ((base ++ openL :: (mid ++ [closeL])).length - 1) = base ++ new ∧
      0 < new.length ∧ idsOk base.length new ∧ foldsOk base.length new ∧
      htmlOk new := by
  have hlen : (base ++ openL :: (mid ++ [closeL])).length = base.length + mid.length + 2 := by
    simp
    try omega
  have hget : (base ++ openL :: (mid ++ [closeL]))[base.length]? = some openL := by
    rw [List.getElem?_append_right (Nat.le_refl _)]
    simp
  have hset : setBlockEndAt (base ++ openL :: (mid ++ [closeL])) base.length
      ((base ++ openL :: (mid ++ [closeL])).length - 1) =
      base ++ { openL with blockEnd := some (base.length + mid.length + 1) } ::
        (mid ++ [closeL]) := by
    unfold setBlockEndAt
    rw [hget]
    dsimp only
    rw [hlen]
    rw [show base.length + mid.length + 2 - 1 = base.length + mid.length + 1 from by omega]
    rw [List.set_append_right _ _ (Nat.le_refl _)]
    simp
  refine ⟨{ openL with blockEnd := some (base.length + mid.length + 1) } ::
    (mid ++ [closeL]), hset, by simp, ?_, ?_, ?_⟩
  · refine idsOk_cons (by simpa using hoid) ?_
    exact idsOk_append hmidi (idsOk_single (by omega))
  · refine foldsOk_cons ?_ ?_
    · intro _
      refine ⟨base.length + mid.length + 1, rfl, by omega, ?_⟩
      simp
      try omega
    · exact foldsOk_append hmidf (foldsOk_single_nonfold hcfold)
  · exact htmlOk_cons (by simpa using hohtml)
      (htmlOk_append hmidh (htmlOk_single hchtml))

/-- The common array/object block pattern: open line, children, closing
line, then the `blockEnd` back-patch. -/
theorem processBlock_spec (st : PState) (OP CL : JsonLine) (inner : PState)
    (newC : List JsonLine)
    (hOPid : OP.id = st.result.length) (hOPfold : OP.canFold = true)
    (hOPhtml : TokenSafe OP.html)
    (hinner : inner.result = (st.result ++ [OP]) ++ newC)
    (hCi : idsOk (st.result.length + 1) newC)
    (hCf : foldsOk (st.result.length + 1) newC)
    (hCh : htmlOk newC)
    (hCLid : CL.id = inner.result.length) (hCLfold : CL.canFold = false)
    (hCLhtml : TokenSafe CL.html) :
    ∃ new, setBlockEndAt (inner.result ++ [CL]) st.result.length
        ((inner.result ++ [CL]).length - 1) = st.result ++ new ∧
      0 < new.length ∧ idsOk st.result.length new ∧ foldsOk st.result.length new ∧
      htmlOk new := by
  have hCLid2 : CL.id = st.result.length + 1 + newC.length := by
    rw [hCLid, hinner]
    simp
    try omega
  rw [hinner]
  have hshape : ((st.result ++ [OP]) ++ newC) ++ [CL] =
      st.result ++ OP :: (newC ++ [CL]) := by
    simp
  rw [hshape]
  exact block_result_spec st.result OP CL newC hOPid hOPfold hOPhtml hCLid2
    hCLfold hCLhtml hCi hCf hCh

mutual

/-- `processValue` appends a non-empty block of lines whose ids continue
the result positions, whose foldable lines carry valid closing indices,
and whose html is token-safe. -/
theorem processValue_spec (v : Json) (indent : Nat) (isLast : Bool) (kp : List Char)
    (st : PState) (hkp : TokenSafe kp) :
    ∃ new, (processValue v indent isLast kp st).result = st.result ++ new ∧
      0 < new.length ∧ idsOk st.result.length new ∧ foldsOk st.result.length new ∧
      htmlOk new := by
  cases v with
  | null =>
      simp only [processValue]
      exact pushLine_spec st indent _ (tokenSafe_line kp _ _ isLast hkp)
  | boolean b =>
      simp only [processValue]
      exact pushLine_spec st indent _ (tokenSafe_line kp _ _ isLast hkp)
  | number n =>
      simp only [processValue]
      exact pushLine_spec st indent _ (tokenSafe_line kp _ _ isLast hkp)
  | strv s =>
      simp only [processValue]
      exact pushLine_spec st indent _ (tokenSafe_line kp _ _ isLast hkp)
  | arr items =>
      by_cases hlen : items.length = 0
      · simp only [processValue, if_pos hlen]
        exact pushLine_spec st indent _ (tokenSafe_line kp _ _ isLast hkp)
      · simp only [processValue, if_neg hlen, pushLine]
        obtain ⟨newC, hC, hCi, hCf, hCh⟩ :=
          processItems_spec items (indent + 1)
            { result := st.result ++
                [{ id := st.result.length, lineNumber := st.lineNumber, indent := indent,
                   html := kp ++ getTokenHtml "[".toList TokenType.bracket,
                   canFold := true, blockId := "block-" ++ toString st.blockIdCounter,
                   collapsedInfo := some ((toString items.length).toList ++ " items".toList),
                   closingBracket := some "]".toList,
                   trailingComma := some (commaOf isLast) }],
              lineNumber := st.lineNumber + 1,
              blockIdCounter := st.blockIdCounter + 1 }
        refine processBlock_spec st _ _ _ newC rfl rfl
          (hkp.append (tokenSafe_single _ _)) hC ?_ ?_ hCh rfl rfl
          ((tokenSafe_single _ _).append (tokenSafe_comma isLast))
        · simpa using hCi
        · simpa using hCf
  | obj fields =>
      by_cases hlen : fields.length = 0
      · simp only [processValue, if_pos hlen]
        exact pushLine_spec st indent _ (tokenSafe_line kp _ _ isLast hkp)
      · simp only [processValue, if_neg hlen, pushLine]
        obtain ⟨newC, hC, hCi, hCf, hCh⟩ :=
          processFields_spec fields (indent + 1)
            { result := st.result ++
                [{ id := st.result.length, lineNumber := st.lineNumber, indent := indent,
                   html := kp ++ getTokenHtml "\x7b".toList TokenType.bracket,
                   canFold := true, blockId := "block-" ++ toString st.blockIdCounter,
                   collapsedInfo := some ((toString fields.length).toList ++ " keys".toList),
                   closingBracket := some "\x7d".toList,
                   trailingComma := some (commaOf isLast) }],
              lineNumber := st.lineNumber + 1,
              blockIdCounter := st.blockIdCounter + 1 }
        refine processBlock_spec st _ _ _ newC rfl rfl
          (hkp.append (tokenSafe_single _ _)) hC ?_ ?_ hCh rfl rfl
          ((tokenSafe_single _ _).append (tokenSafe_comma isLast))
        · simpa using hCi
        · simpa using hCf

/-- `processItems` appends a block of well-formed lines. -/
theorem processItems_spec (items : List Json) (indent : Nat) (st : PState) :
    ∃ new, (processItems items indent st).result = st.result ++ new ∧
      idsOk st.result.length new ∧ foldsOk st.result.length new ∧ htmlOk new := by
  rcases items with _ | ⟨x, _ | ⟨y, rest⟩⟩
  · simp only [processItems]
    exact ⟨[], by simp, by intro j h; simp at h, by intro j h; simp at h,
      by intro j h; simp at h⟩
  · simp only [processItems]
    obtain ⟨new, h1, _, h3, h4, h5⟩ := processValue_spec x indent true [] st TokenSafe.nil
    exact ⟨new, h1, h3, h4, h5⟩
  · simp only [processItems]
    obtain ⟨new1, h1, _, h1i, h1f, h1h⟩ :=
      processValue_spec x indent false [] st TokenSafe.nil
    obtain ⟨new2, h2, h2i, h2f, h2h⟩ :=
      processItems_spec (y :: rest) indent (processValue x indent false [] st)
    rw [h1, List.length_append] at h2i h2f
    refine ⟨new1 ++ new2, ?_, idsOk_append h1i h2i, foldsOk_append h1f h2f,
      htmlOk_append h1h h2h⟩
    rw [h2, h1, List.append_assoc]

/-- `processFields` appends a block of well-formed lines. -/
theorem processFields_spec (fields : List (List Char × Json)) (indent : Nat) (st : PState) :
    ∃ new, (processFields fields indent st).result = st.result ++ new ∧
      idsOk st.result.length new ∧ foldsOk st.result.length new ∧ htmlOk new := by
  rcases fields with _ | ⟨⟨k, x⟩, _ | ⟨f, rest⟩⟩
  · simp only [processFields]
    exact ⟨[], by simp, by intro j h; simp at h, by intro j h; simp at h,
      by intro j h; simp at h⟩
  · simp only [processFields]
    obtain ⟨new, h1, _, h3, h4, h5⟩ := processValue_spec x indent true _ st
      ((tokenSafe_single _ _).append (tokenSafe_single _ _))
    exact ⟨new, h1, h3, h4, h5⟩
  · simp only [processFields]
    obtain ⟨new1, h1, _, h1i, h1f, h1h⟩ := processValue_spec x indent false _ st
      ((tokenSafe_single _ _).append (tokenSafe_single _ _))
    obtain ⟨new2, h2, h2i, h2f, h2h⟩ :=
      processFields_spec (f :: rest) indent
        (processValue x indent false
          (getTokenHtml ('"' :: k ++ ['"']) TokenType.key ++
            getTokenHtml ": ".toList TokenType.punct) st)
    rw [h1, List.length_append] at h2i h2f
    refine ⟨new1 ++ new2, ?_, idsOk_append h1i h2i, foldsOk_append h1f h2f,
      htmlOk_append h1h h2h⟩
    rw [h2, h1, List.append_assoc]

end

/-- Line ids of the generated view are exactly the positions. -/
theorem parseJsonToLines_ids (v : Json) : idsOk 0 (parseJsonToLines v) := by
  obtain ⟨new, h1, _, h3, _, _⟩ := processValue_spec v 0 true []
    { result := [], lineNumber := 1, blockIdCounter := 0 } TokenSafe.nil
  unfold parseJsonToLines
  rw [h1]
  simpa using h3

/-- Every foldable generated line has a closing index strictly after it
and inside the list. -/
theorem parseJsonToLines_folds (v : Json) : foldsOk 0 (parseJsonToLines v) := by
  obtain ⟨new, h1, _, _, h4, _⟩ := processValue_spec v 0 true []
    { result := [], lineNumber := 1, blockIdCounter := 0 } TokenSafe.nil
  unfold parseJsonToLines
  rw [h1]
  simpa using h4

/-- Every generated line's html is token-safe. -/
theorem parseJsonToLines_html (v : Json) : htmlOk (parseJsonToLines v) := by
  obtain ⟨new, h1, _, _, _, h5⟩ := processValue_spec v 0 true []
    { result := [], lineNumber := 1, blockIdCounter := 0 } TokenSafe.nil
  unfold parseJsonToLines
  rw [h1]
  simpa using h5

/-- A character not in the replacement is gone after its own stage. -/
theorem not_mem_replaceAll_self (c : Char) (r s : List Char) (hc : c ∉ r) :
    c ∉ replaceAll c r s := by
  intro hmem
  unfold replaceAll at hmem
  rw [List.mem_flatten] at hmem
  obtain ⟨l, hl, hcl⟩ := hmem
  rw [List.mem_map] at hl
  obtain ⟨y, hy, rfl⟩ := hl
  by_cases hyc : y = c
  · rw [if_pos hyc] at hcl
    exact hc hcl
  · rw [if_neg hyc] at hcl
    rw [List.mem_singleton] at hcl
    exact hyc hcl.symm

/-- Later stages neither reintroduce a character nor keep one that was
already gone. -/
theorem not_mem_replaceAll_other (c c0 : Char) (r s : List Char)
    (hcr : c ∉ r) (hcs : c ∉ s) : c ∉ replaceAll c0 r s := by
  intro hmem
  unfold replaceAll at hmem
  rw [List.mem_flatten] at hmem
  obtain ⟨l, hl, hcl⟩ := hmem
  rw [List.mem_map] at hl
  obtain ⟨y, hy, rfl⟩ := hl
  by_cases hyc : y = c0
  · rw [if_pos hyc] at hcl
    exact hcr hcl
  · rw [if_neg hyc] at hcl
    rw [List.mem_singleton] at hcl
    exact hcs (hcl ▸ hy)

/-- C9: `escapeHtml` output has no raw `<`, `>` or `"` (ampersands are
escaped first, so entities are not double-processed), and every line
html generated for the tree view is built exclusively from
`getTokenHtml` outputs — whose data part passes through `escapeHtml` —
and literal commas. -/
theorem escapeHtml_and_line_tokens_escaped :
    (∀ s : List Char, '<' ∉ escapeHtml s ∧ '>' ∉ escapeHtml s ∧ '"' ∉ escapeHtml s) ∧
    (∀ v : Json, ∀ l ∈ parseJsonToLines v, TokenSafe l.html) := by
  constructor
  · intro s
    refine ⟨?_, ?_, ?_⟩
    · exact not_mem_replaceAll_other '<' '"' quotEntity _ (by decide)
        (not_mem_replaceAll_other '<' '>' gtEntity _ (by decide)
          (not_mem_replaceAll_self '<' ltEntity _ (by decide)))
    · exact not_mem_replaceAll_other '>' '"' quotEntity _ (by decide)
        (not_mem_replaceAll_self '>' gtEntity _ (by decide))
    · exact not_mem_replaceAll_self '"' quotEntity _ (by decide)
  · intro v l hl
    obtain ⟨j, hj, hjl⟩ := List.getElem_of_mem hl
    rw [← hjl]
    exact parseJsonToLines_html v j hj

/-- Witness for C9: the single line rendered for the JSON value `null`
has token-safe html. -/
theorem escapeHtml_and_line_tokens_escaped_witness :
    TokenSafe ((parseJsonToLines Json.null).get ⟨0, by decide⟩).html :=
  escapeHtml_and_line_tokens_escaped.2 Json.null _ (List.get_mem _ _ _)

/-- A block hides nothing iff no fold range of its id covers the index. -/
theorem isHiddenBy_eq_false_iff (lines : List JsonLine) (b' : String) (idx : Nat) :
    isHiddenBy lines b' idx = false ↔
      ∀ fs', findFold lines b' = some fs' → ∀ e', fs'.blockEnd = some e' →
        ¬(fs'.id + 1 ≤ idx ∧ idx < e') := by
  unfold isHiddenBy
  rcases hf : findFold lines b' with _ | fs'
  · simp
  · rcases hbe : fs'.blockEnd with _ | e'
    · simp [hbe]
    · simp [hbe]

/-- C1: when a collapsed block id resolves to a fold-start line, the
visible lines are exactly those whose index is not strictly between the
block's start and its recorded closing-bracket line — both of which stay
visible; for a set of collapsed blocks, a line is visible iff no
collapsed block's range strictly contains it (the hidden set is the
union of the per-block ranges); and collapsing then unfolding a block
restores the previous view. -/
theorem jsonviewer_fold_hides_exactly (v : Json) (b : String) (fs : JsonLine)
    (hfind : findFold (parseJsonToLines v) b = some fs) :
    (∃ e, fs.blockEnd = some e ∧
      ∃ (he : e < (parseJsonToLines v).length) (hse : fs.id < e),
        visibleLines (parseJsonToLines v) [b] =
          (parseJsonToLines v).filter
            (fun l => ! decide (fs.id + 1 ≤ l.id ∧ l.id < e)) ∧
        (parseJsonToLines v).get ⟨fs.id, Nat.lt_trans hse he⟩ ∈
          visibleLines (parseJsonToLines v) [b] ∧
        (parseJsonToLines v).get ⟨e, he⟩ ∈ visibleLines (parseJsonToLines v) [b]) ∧
    (∀ (collapsed : List String) (l : JsonLine),
      l ∈ visibleLines (parseJsonToLines v) collapsed ↔
        (l ∈ parseJsonToLines v ∧
          ∀ b' ∈ collapsed, ∀ fs' : JsonLine,
            findFold (parseJsonToLines v) b' = some fs' →
            ∀ e', fs'.blockEnd = some e' → ¬(fs'.id + 1 ≤ l.id ∧ l.id < e'))) ∧
    (∀ collapsed : List String, b ∉ collapsed →
      visibleLines (parseJsonToLines v) (toggleFold b (toggleFold b collapsed)) =
        visibleLines (parseJsonToLines v) collapsed) := by
  have hids := parseJsonToLines_ids v
  have hfolds := parseJsonToLines_folds v
  refine ⟨?_, ?_, ?_⟩
  · have hp := List.find?_some hfind
    rw [Bool.and_eq_true] at hp
    have hfold : fs.canFold = true := hp.1
    have hmem := List.mem_of_find?_eq_some hfind
    obtain ⟨j, hj, hjeq⟩ := List.getElem_of_mem hmem
    have hid : fs.id = j := by
      rw [← hjeq]
      have := hids j hj
      omega
    obtain ⟨e, hbe, h1, h2⟩ := hfolds j hj (by rw [hjeq]; exact hfold)
    rw [hjeq] at hbe
    refine ⟨e, hbe, by omega, by omega, ?_, ?_, ?_⟩
    · unfold visibleLines
      refine List.filter_congr ?_
      intro l _
      simp [isHidden, isHiddenBy, hfind, hbe]
    · unfold visibleLines
      rw [List.mem_filter]
      refine ⟨List.get_mem _ _ _, ?_⟩
      simp [isHidden, isHiddenBy, hfind, hbe]
      have hat := hids fs.id (by omega)
      omega
    · unfold visibleLines
      rw [List.mem_filter]
      refine ⟨List.get_mem _ _ _, ?_⟩
      simp [isHidden, isHiddenBy, hfind, hbe]
      have hat := hids e (by omega)
      omega
  · intro collapsed l
    unfold visibleLines
    rw [List.mem_filter]
    simp only [Bool.not_eq_true', isHidden, List.any_eq_false]
    refine and_congr_right fun _ => ?_
    refine forall_congr' fun b' => ?_
    refine forall_congr' fun _ => ?_
    rw [Bool.not_eq_true]
    exact isHiddenBy_eq_false_iff _ _ _
  · intro collapsed hnot
    by_cases hb : b = ""
    · simp [toggleFold, hb]
    · simp [toggleFold, hb, hnot]

/-- Witness for C1: collapsing the only block of `[null]` keeps exactly
the bracket lines (ids 0 and 2) and hides the line strictly between
them. -/
theorem jsonviewer_fold_hides_exactly_witness :
    visibleLines (parseJsonToLines (Json.arr [Json.null])) ["block-0"] =
      (parseJsonToLines (Json.arr [Json.null])).filter
        (fun l => ! decide (0 + 1 ≤ l.id ∧ l.id < 2)) := by
  obtain ⟨e, hbe, he, hse, hfil, _, _⟩ :=
    (jsonviewer_fold_hides_exactly (Json.arr [Json.null]) "block-0"
      { id := 0, lineNumber := 1, indent := 0,
        html := getTokenHtml "[".toList TokenType.bracket,
        canFold := true, blockId := "block-0", blockEnd := some 2,
        collapsedInfo := some "1 items".toList,
        closingBracket := some "]".toList, trailingComma := some [] }
      (by decide)).1
  have he2 : e = 2 := by
    simpa using hbe.symm
  subst he2
  exact hfil

/-- Counterexample to C3 as stated: the string input `"\x7b\x7d"`
parses as JSON (the empty object) yet the component renders the
empty-state view, not the structured tree view. -/
theorem json_fallback_counterexample :
    parseEmptyObj "\x7b\x7d".toList = some (Json.obj []) ∧
    jsonViewerRender parseEmptyObj (InputData.strInput "\x7b\x7d".toList) =
      ViewOutput.emptyView ∧
    ∀ ls : List JsonLine,
      jsonViewerRender parseEmptyObj (InputData.strInput "\x7b\x7d".toList) ≠
        ViewOutput.treeView ls := by
  have h2 : jsonViewerRender parseEmptyObj (InputData.strInput "\x7b\x7d".toList) =
      ViewOutput.emptyView := by decide
  refine ⟨rfl, h2, ?_⟩
  intro ls h
  rw [h2] at h
  exact absurd h (by simp)

/-- C3 (amended): a non-empty-trimmed string that fails to parse is
shown as the unmodified raw text with the warning banner; a parse
success — or a directly supplied object — renders the structured tree
view unless the value is an empty plain object (which shows the
empty-state view), and in those cases no warning banner is produced. -/
theorem json_fallback_dispatch (parse : List Char → Option Json) (s : List Char)
    (w : Json) :
    (trimChars s ≠ [] → parse (trimChars s) = none →
      jsonViewerRender parse (InputData.strInput s) =
        ViewOutput.rawView (some "invalid JSON") s) ∧
    (trimChars s ≠ [] → parse (trimChars s) = some w →
      jsonViewerRender parse (InputData.strInput s) =
        (if isEmptyPlainObject w then ViewOutput.emptyView
         else ViewOutput.treeView (parseJsonToLines w)) ∧
      parseErrorMessage parse (InputData.strInput s) = none) ∧
    (jsonViewerRender parse (InputData.objInput w) =
      (if isEmptyPlainObject w then ViewOutput.emptyView
       else ViewOutput.treeView (parseJsonToLines w)) ∧
     parseErrorMessage parse (InputData.objInput w) = none) := by
  refine ⟨?_, ?_, ?_⟩
  · intro h1 h2
    simp [jsonViewerRender, normalize, parseErrorMessage, h1, h2]
  · intro h1 h2
    constructor
    · simp [jsonViewerRender, normalize, h1, h2]
    · simp [parseErrorMessage, h1, h2]
  · constructor
    · simp [jsonViewerRender, normalize]
    · simp [parseErrorMessage]

/-- Witness for the amended C3: a plain word is shown raw with the
warning banner under a parse oracle that rejects everything. -/
theorem json_fallback_dispatch_witness :
    jsonViewerRender parseNone (InputData.strInput "hello".toList) =
      ViewOutput.rawView (some "invalid JSON") "hello".toList :=
  (json_fallback_dispatch parseNone "hello".toList Json.null).1 (by decide) rfl

end CPMC
